import Mathlib

set_option maxHeartbeats 1000000

/-!
Shallow embedding of `src/packages/core/database/lib/query/query-builder.js`
(the fluent query builder of the database layer).

The builder accumulates a mutable `state` object through chained setter calls
and, on compilation (`getKnexQuery`), drives an external knex-style native
query builder.  Here the native query is modelled as a table binding together
with the ordered list of clause-building calls made on it, and the stateful
builder is modelled by explicit state passing.  Helper functions that live in
`./helpers` (not under `src/`) are modelled from the spec and marked as such.
-/

namespace QueryBuilder

/-- Operation kind of a query: the value of `state.type` in the source, one of
the six strings `select`, `insert`, `update`, `delete`, `count`, `truncate`. -/
inductive QType where
  | select
  | insert
  | update
  | delete
  | count
  | truncate
deriving DecidableEq

/-- Column reference handed to the builder: either a string column name, or an
opaque non-string value (raw expression / ref object) which `aliasColumn`
passes through unchanged (`typeof columnName !== 'string'`). -/
inductive ColumnRef where
  | str (s : String)
  | raw (id : Nat)
deriving DecidableEq

/-- Scalar value inside a filter descriptor or payload. -/
inductive FVal where
  | s (v : String)
  | i (n : Int)
deriving DecidableEq

/-- Filter descriptor: a mapping from field name to value (one `where` argument). -/
abbrev Filter := List (String × FVal)

/-- Payload of an insert/update (`state.data`). -/
abbrev Payload := List (String × FVal)

/-- Direction of an order-by entry. -/
inductive Direction where
  | asc
  | desc
deriving DecidableEq

/-- Order-by entry `{column, direction}`; the direction may be omitted in raw input. -/
structure OrderEntry where
  column : ColumnRef
  direction : Option Direction
deriving DecidableEq

/-- Join descriptor; opaque to compilation, which only forwards the list of
joins to `helpers.applyJoins`. -/
structure Join where
  joinAlias : String
  targetTable : String
  joinType : String
  onFields : List (String × String)
deriving DecidableEq

/-- The `state` object of `createQueryBuilder` (lines 11-24 of the source).
The `where` array is called `whereArr` because `where` is a Lean keyword.
The source object has no `search` key initially; the `search` setter adds
one, so the field is an `Option` that starts as `none`. -/
structure QueryState where
  type : QType
  select : List ColumnRef
  count : Option String
  first : Bool
  data : Option Payload
  whereArr : List Filter
  joins : List Join
  populate : Option Nat
  limit : Option Int
  offset : Option Int
  orderBy : List OrderEntry
  groupBy : List String
  search : Option String
deriving DecidableEq

/-- The initial state literal: `type: 'select'`, empty arrays, nulls. -/
def initialState : QueryState where
  type := QType.select
  select := []
  count := none
  first := false
  data := none
  whereArr := []
  joins := []
  populate := none
  limit := none
  offset := none
  orderBy := []
  groupBy := []
  search := none

/-- One builder instance: the captured `tableName`, the attribute names of
`meta.attributes`, the dialect's `useReturning()` answer, the instance alias
(`getAlias()` at construction, hence `t0`), and the mutable state. -/
structure Builder where
  tableName : String
  attributes : List String
  useReturning : Bool
  tableAlias : String
  state : QueryState
deriving DecidableEq

/-- Embeds `createQueryBuilder(uid, db)`: a fresh builder over the table of
the entity's metadata, with alias `t0` and the initial state. -/
def createQueryBuilder (tableName : String) (attributes : List String)
    (useReturning : Bool) : Builder where
  tableName := tableName
  attributes := attributes
  useReturning := useReturning
  tableAlias := "t0"
  state := initialState

/-- Accumulator pass of lodash `uniq`: keeps each element whose value has not
been seen yet, preserving the order of first occurrences. -/
def uniqAux (seen : List ColumnRef) : List ColumnRef → List ColumnRef
  | [] => []
  | c :: cs => if c ∈ seen then uniqAux seen cs else c :: uniqAux (c :: seen) cs

/-- lodash `_.uniq`: duplicates removed, first occurrence kept, order preserved. -/
def uniq (l : List ColumnRef) : List ColumnRef :=
  uniqAux [] l

/-- Argument to `select`/`addSelect`: lodash `_.castArray` wraps a non-array
argument into a one-element array and keeps an array as is. -/
inductive SelectArgs where
  | single (c : ColumnRef)
  | many (cs : List ColumnRef)
deriving DecidableEq

/-- lodash `_.castArray`. -/
def castArray : SelectArgs → List ColumnRef
  | SelectArgs.single c => [c]
  | SelectArgs.many cs => cs

/-- `select(args)`: sets `state.type = 'select'` and replaces `state.select`
with `_.uniq(_.castArray(args))`. -/
def Builder.select (b : Builder) (args : SelectArgs) : Builder :=
  { b with state := { b.state with type := QType.select, select := uniq (castArray args) } }

/-- `addSelect(args)`: `state.select = _.uniq([...state.select, ..._.castArray(args)])`. -/
def Builder.addSelect (b : Builder) (args : SelectArgs) : Builder :=
  { b with state := { b.state with select := uniq (b.state.select ++ castArray args) } }

/-- `insert(data)`: sets `state.type = 'insert'` and `state.data = data`. -/
def Builder.insert (b : Builder) (d : Payload) : Builder :=
  { b with state := { b.state with type := QType.insert, data := some d } }

/-- `update(data)`: sets `state.type = 'update'` and `state.data = data`. -/
def Builder.update (b : Builder) (d : Payload) : Builder :=
  { b with state := { b.state with type := QType.update, data := some d } }

/-- `delete()`: sets `state.type = 'delete'`. -/
def Builder.delete (b : Builder) : Builder :=
  { b with state := { b.state with type := QType.delete } }

/-- `count(count = '*')`: sets `state.type = 'count'` and `state.count`. -/
def Builder.count (b : Builder) (c : String) : Builder :=
  { b with state := { b.state with type := QType.count, count := some c } }

/-- Argument to `where`: either a plain object (a filter descriptor, exactly
the values on which `_.isPlainObject` is true) or any other value (array,
string, number, ...) carrying an opaque tag. -/
inductive WhereArg where
  | obj (f : Filter)
  | nonObject (tag : String)
deriving DecidableEq

/-- lodash `_.isPlainObject` on a `where` argument. -/
def isPlainObject : WhereArg → Bool
  | WhereArg.obj _ => true
  | WhereArg.nonObject _ => false

/-- `where(where = {})`: throws `Where must be an object` when
`!_.isPlainObject(where)`, otherwise pushes the descriptor onto `state.where`.
The throw is modelled as `Except.error`. -/
def Builder.whereS (b : Builder) (w : WhereArg) : Except String Builder :=
  match w with
  | WhereArg.obj f =>
    Except.ok { b with state := { b.state with whereArr := b.state.whereArr ++ [f] } }
  | WhereArg.nonObject _ => Except.error "Where must be an object"

/-- `limit(limit)`: sets `state.limit`. -/
def Builder.limit (b : Builder) (n : Int) : Builder :=
  { b with state := { b.state with limit := some n } }

/-- `offset(offset)`: sets `state.offset`. -/
def Builder.offset (b : Builder) (n : Int) : Builder :=
  { b with state := { b.state with offset := some n } }

/-- `orderBy(orderBy)`: sets `state.orderBy`. -/
def Builder.orderBy (b : Builder) (ob : List OrderEntry) : Builder :=
  { b with state := { b.state with orderBy := ob } }

/-- `groupBy(groupBy)`: sets `state.groupBy`. -/
def Builder.groupBy (b : Builder) (g : List String) : Builder :=
  { b with state := { b.state with groupBy := g } }

/-- `search(query)`: sets `state.search`. -/
def Builder.search (b : Builder) (q : String) : Builder :=
  { b with state := { b.state with search := some q } }

/-- `first()`: sets `state.first = true`. -/
def Builder.first (b : Builder) : Builder :=
  { b with state := { b.state with first := true } }

/-- `join(join)`: pushes onto `state.joins`. -/
def Builder.join (b : Builder) (j : Join) : Builder :=
  { b with state := { b.state with joins := b.state.joins ++ [j] } }

/-- `mustUseAlias()`: `['select', 'count'].includes(state.type)`. -/
def Builder.mustUseAlias (b : Builder) : Bool :=
  match b.state.type with
  | QType.select => true
  | QType.count => true
  | _ => false

/-- The test `columnName.indexOf('.') >= 0`: the string contains the
qualifier separator. -/
def containsDot (s : String) : Bool :=
  s.data.any fun ch => ch == '.'

/-- `aliasColumn(columnName, alias)`: non-strings pass through; a name already
containing `.` passes through; an explicit alias prefixes; otherwise the
builder's own alias prefixes exactly when `mustUseAlias()`. -/
def Builder.aliasColumn (b : Builder) (columnName : ColumnRef) (a : Option String) : ColumnRef :=
  match columnName with
  | ColumnRef.raw n => ColumnRef.raw n
  | ColumnRef.str s =>
    if containsDot s then ColumnRef.str s
    else
      match a with
      | some al => ColumnRef.str (al ++ "." ++ s)
      | none =>
        if b.mustUseAlias then ColumnRef.str (b.tableAlias ++ "." ++ s) else ColumnRef.str s

/-- `shouldUseSubQuery()`: `['delete', 'update'].includes(state.type) && state.joins.length > 0`. -/
def Builder.shouldUseSubQuery (b : Builder) : Bool :=
  (match b.state.type with
   | QType.delete => true
   | QType.update => true
   | _ => false) && decide (0 < b.state.joins.length)

/-- Modelled from the spec: `helpers.processOrderBy` (file `./helpers`, which is
not under `src/`) validates each `{column, direction}` pair, resolves the
column through the Column Resolver (`qb.aliasColumn`), and defaults the
direction to `asc` when omitted. -/
def processOrderBy (b : Builder) (ob : List OrderEntry) : List OrderEntry :=
  ob.map fun o =>
    { column := b.aliasColumn o.column none
      direction := some (o.direction.getD Direction.asc) }

/-- Column-resolver step on a field name occurring as a filter key. -/
def qualifyName (b : Builder) (k : String) : String :=
  match b.aliasColumn (ColumnRef.str k) none with
  | ColumnRef.str s => s
  | ColumnRef.raw _ => k

/-- Modelled from the spec: `helpers.processWhere` (file `./helpers`, which is
not under `src/`) resolves field names against metadata and qualifies the
columns of each filter descriptor through the Column Resolver, preserving the
sequence of descriptors. -/
def processWhere (b : Builder) (ws : List Filter) : List Filter :=
  ws.map fun f => f.map fun kv => (qualifyName b kv.1, kv.2)

/-- Modelled from the spec: `helpers.processPopulate` (file `./helpers`, which
is not under `src/`) resolves relation descriptors from metadata; the populate
spec is opaque to compilation, so normalization preserves the descriptor. -/
def processPopulate (_b : Builder) (p : Option Nat) : Option Nat :=
  p

/-- `processState()`: replaces `state.orderBy`, `state.where` and
`state.populate` with their processed forms. -/
def Builder.processState (b : Builder) : Builder :=
  { b with state :=
      { b.state with
          orderBy := processOrderBy b b.state.orderBy
          whereArr := processWhere b b.state.whereArr
          populate := processPopulate b b.state.populate } }

/-- Table binding of a knex query: `connection(tableName)` or
`connection({ [alias]: tableName })`. -/
inductive TableBinding where
  | plainName (t : String)
  | aliasedName (a : String) (t : String)
deriving DecidableEq

/-- One clause-building call made on the native (knex) query object. -/
inductive Clause where
  | distinctOn (c : ColumnRef)
  | selectCols (cs : List ColumnRef)
  | countAgg (target : Option String)
  | insertData (d : Option Payload)
  | returningId
  | updateData (d : Option Payload)
  | deleteRows
  | truncateTable
  | limitRows (n : Int)
  | offsetRows (n : Int)
  | orderRows (ob : List OrderEntry)
  | firstRow
  | groupRows (cols : List String)
  | whereApplied (ws : List Filter)
  | searchGroup (q : String)
  | joinsApplied (js : List Join)
deriving DecidableEq

/-- A native (knex) query: its table binding and the ordered clause calls. -/
structure NQ where
  binding : TableBinding
  clauses : List Clause
deriving DecidableEq

/-- Appending one clause call to a native query (each knex call mutates the
query object in place; modelled by appending to the call list). -/
def NQ.apply (q : NQ) (c : Clause) : NQ :=
  { q with clauses := q.clauses ++ [c] }

/-- The nested subquery built in `runSubQuery`:
`db.connection.select('id').from(subQB.as('subQuery'))`. -/
structure NestedSelect where
  cols : List String
  subQB : NQ
  subAlias : String
deriving DecidableEq

/-- Clause of the compiled top-level query: either a plain clause call, or the
`whereIn(column, nestedSubQuery)` call made in `runSubQuery`.  In this program
a nested subquery is always compiled with kind Select, so it never itself
contains a `whereIn`; the stratification reflects that. -/
inductive OClause where
  | base (c : Clause)
  | whereIn (column : String) (sub : NestedSelect)
deriving DecidableEq

/-- The compiled top-level query returned by `getKnexQuery`. -/
structure OuterQuery where
  binding : TableBinding
  clauses : List OClause
deriving DecidableEq

/-- Side effects performed on the `db` object during compilation: the
`truncate` case of `getKnexQuery` calls `db.truncate()` on the database
object instead of adding a clause to the query being built. -/
inductive DbEffect where
  | dbTruncate
deriving DecidableEq

/-- Result of compilation: the returned query plus the `db`-level side effects
performed while compiling. -/
structure CompileResult where
  query : OuterQuery
  dbEffects : List DbEffect
deriving DecidableEq

/-- The operation-specific switch of `getKnexQuery` (lines 230-274 of the
source), acting on the query `qb` for the already-processed builder `b`.  The
`truncate` case adds no clause to `qb`: the source calls `db.truncate()` on
the database object, recorded here as a `DbEffect`. -/
def applyOp (qb : NQ) (b : Builder) : NQ × List DbEffect :=
  let s := b.state
  match s.type with
  | QType.select =>
    let sel0 := if s.select.length = 0 then [ColumnRef.str "*"] else s.select
    let addDistinct := decide (0 < s.joins.length) && s.groupBy.isEmpty
    let qbA :=
      if addDistinct then qb.apply (Clause.distinctOn (b.aliasColumn (ColumnRef.str "id") none))
      else qb
    let sel1 := if addDistinct then (s.orderBy.map fun o => o.column) ++ sel0 else sel0
    (qbA.apply (Clause.selectCols (sel1.map fun c => b.aliasColumn c none)), [])
  | QType.count => (qb.apply (Clause.countAgg s.count), [])
  | QType.insert =>
    let qbA := qb.apply (Clause.insertData s.data)
    let qbB :=
      if b.useReturning && decide ("id" ∈ b.attributes) then qbA.apply Clause.returningId
      else qbA
    (qbB, [])
  | QType.update => (qb.apply (Clause.updateData s.data), [])
  | QType.delete => (qb.apply Clause.deleteRows, [])
  | QType.truncate => (qb, [DbEffect.dbTruncate])

/-- The universal clauses of `getKnexQuery` (lines 276-311 of the source),
applied to `qb1` in source order.  Notes kept faithful to the source:
`if (state.limit)` and `if (state.offset)` are JavaScript truthiness tests, so
`0` and `null` both skip the clause; `if (state.where)` tests an array, which
is always truthy in JavaScript, so the where clause is applied
unconditionally; `if (state.search)` is false for `undefined` and for the
empty string. -/
def applyTail (qb1 : NQ) (s : QueryState) : NQ :=
  let qb2 :=
    match s.limit with
    | some n => if n = 0 then qb1 else qb1.apply (Clause.limitRows n)
    | none => qb1
  let qb3 :=
    match s.offset with
    | some n => if n = 0 then qb2 else qb2.apply (Clause.offsetRows n)
    | none => qb2
  let qb4 := if decide (0 < s.orderBy.length) then qb3.apply (Clause.orderRows s.orderBy) else qb3
  let qb5 := if s.first then qb4.apply Clause.firstRow else qb4
  let qb6 := if decide (0 < s.groupBy.length) then qb5.apply (Clause.groupRows s.groupBy) else qb5
  let qb7 := qb6.apply (Clause.whereApplied s.whereArr)
  let qb8 :=
    match s.search with
    | some q => if q = "" then qb7 else qb7.apply (Clause.searchGroup q)
    | none => qb7
  if decide (0 < s.joins.length) then qb8.apply (Clause.joinsApplied s.joins) else qb8

/-- Embeds the body of `getKnexQuery` apart from the subquery short-circuit:
the aliased table binding, `processState()`, then the operation-specific
switch (`applyOp`) followed by the universal clauses (`applyTail`), exactly in
source order.  The guard `if (!state.type) this.select('*')` never fires
because `state.type` always holds one of the six kind strings. -/
def Builder.compileMain (b0 : Builder) : NQ × List DbEffect :=
  let aliasedTableName :=
    if b0.mustUseAlias then TableBinding.aliasedName b0.tableAlias b0.tableName
    else TableBinding.plainName b0.tableName
  let qb : NQ := { binding := aliasedTableName, clauses := [] }
  let b := b0.processState
  let opStep := applyOp qb b
  (applyTail opStep.1 b.state, opStep.2)

/-- The zero-argument knex call `connection(tableName)[state.type]()` made in
`runSubQuery`, for each possible value of `state.type`.  In the program this
is read at line 205, after `this.select('id')` at line 198 has already set
`state.type = 'select'`, so the call actually made is always the
zero-argument `select()`. -/
def knexNoArgCall : QType → Clause
  | QType.select => Clause.selectCols []
  | QType.insert => Clause.insertData none
  | QType.update => Clause.updateData none
  | QType.delete => Clause.deleteRows
  | QType.count => Clause.countAgg none
  | QType.truncate => Clause.truncateTable

/-- Embeds `runSubQuery()`.  Line 198's `this.select('id')` mutates the shared
closed-over `state`, setting `state.type = 'select'` (which also makes the
recursive `this.getKnexQuery()` equal to `compileMain`, as the subquery branch
cannot fire again).  Line 205 then reads the already-mutated `state.type`, so
the zero-argument call `connection(tableName)[state.type]()` of the outer
query is a `select()`, not the original delete/update.  The result is
`connection(tableName)[state.type]().whereIn('id', nestedSubQuery)` where the
nested subquery is `connection.select('id').from(subQB.as('subQuery'))`. -/
def Builder.runSubQuery (b : Builder) : CompileResult :=
  let bSel := b.select (SelectArgs.single (ColumnRef.str "id"))
  let sub := bSel.compileMain
  let nestedSubQuery : NestedSelect := { cols := ["id"], subQB := sub.1, subAlias := "subQuery" }
  { query :=
      { binding := TableBinding.plainName b.tableName
        clauses := [OClause.base (knexNoArgCall bSel.state.type),
          OClause.whereIn "id" nestedSubQuery] }
    dbEffects := sub.2 }

/-- Embeds `getKnexQuery()`: the subquery short-circuit, otherwise the main
compilation path with every clause a plain (`base`) clause call. -/
def Builder.getKnexQuery (b : Builder) : CompileResult :=
  if b.shouldUseSubQuery then b.runSubQuery
  else
    let r := b.compileMain
    { query := { binding := r.1.binding, clauses := r.1.clauses.map OClause.base }
      dbEffects := r.2 }

/-!
Append normal form of the compiled clause lists: one list-valued definition
per conditional clause of the compiler, and lemmas rewriting the imperative
`NQ.apply` chains of `applyOp`/`applyTail` into a single list append.
-/

/-- One-clause list when the condition holds, empty otherwise. -/
def condPart (p : Bool) (c : Clause) : List Clause :=
  if p then [c] else []

/-- Clause list produced by the truthiness test `if (state.limit)`. -/
def limitPart : Option Int → List Clause
  | some n => if n = 0 then [] else [Clause.limitRows n]
  | none => []

/-- Clause list produced by the truthiness test `if (state.offset)`. -/
def offsetPart : Option Int → List Clause
  | some n => if n = 0 then [] else [Clause.offsetRows n]
  | none => []

/-- Clause list produced by the truthiness test `if (state.search)`. -/
def searchPart : Option String → List Clause
  | some q => if q = "" then [] else [Clause.searchGroup q]
  | none => []

/-- The operation-specific clause list emitted by `applyOp` for the
(processed) builder `b`. -/
def opOf (b : Builder) : List Clause :=
  let s := b.state
  match s.type with
  | QType.select =>
    let sel0 := if s.select.length = 0 then [ColumnRef.str "*"] else s.select
    let addDistinct := decide (0 < s.joins.length) && s.groupBy.isEmpty
    let sel1 := if addDistinct then (s.orderBy.map fun o => o.column) ++ sel0 else sel0
    condPart addDistinct (Clause.distinctOn (b.aliasColumn (ColumnRef.str "id") none)) ++
      [Clause.selectCols (sel1.map fun c => b.aliasColumn c none)]
  | QType.count => [Clause.countAgg s.count]
  | QType.insert =>
    Clause.insertData s.data ::
      condPart (b.useReturning && decide ("id" ∈ b.attributes)) Clause.returningId
  | QType.update => [Clause.updateData s.data]
  | QType.delete => [Clause.deleteRows]
  | QType.truncate => []

/-- The `db`-level side effects of the operation-specific switch. -/
def effOf : QType → List DbEffect
  | QType.truncate => [DbEffect.dbTruncate]
  | _ => []

/-- The universal clause list emitted by `applyTail` for a processed state. -/
def tailOf (s : QueryState) : List Clause :=
  limitPart s.limit ++ offsetPart s.offset ++
    condPart (decide (0 < s.orderBy.length)) (Clause.orderRows s.orderBy) ++
    condPart s.first Clause.firstRow ++
    condPart (decide (0 < s.groupBy.length)) (Clause.groupRows s.groupBy) ++
    [Clause.whereApplied s.whereArr] ++ searchPart s.search ++
    condPart (decide (0 < s.joins.length)) (Clause.joinsApplied s.joins)

/-- The table binding chosen at the top of `getKnexQuery`. -/
def Builder.mainBinding (b0 : Builder) : TableBinding :=
  if b0.mustUseAlias then TableBinding.aliasedName b0.tableAlias b0.tableName
  else TableBinding.plainName b0.tableName

theorem condApply (q : NQ) (p : Bool) (c : Clause) :
    (if p then q.apply c else q) = { binding := q.binding, clauses := q.clauses ++ condPart p c } := by
  cases p <;> simp [NQ.apply, condPart]

theorem applyOp_eq (qb : NQ) (b : Builder) :
    applyOp qb b =
      ({ binding := qb.binding, clauses := qb.clauses ++ opOf b }, effOf b.state.type) := by
  unfold applyOp opOf effOf
  cases h : b.state.type <;>
    simp only [h, condApply, NQ.apply] <;>
    (repeat' split) <;>
    simp_all [condPart, NQ.apply]

theorem applyTail_eq (q : NQ) (s : QueryState) :
    applyTail q s = { binding := q.binding, clauses := q.clauses ++ tailOf s } := by
  unfold applyTail tailOf
  cases hl : s.limit <;> cases ho : s.offset <;> cases hs : s.search <;>
    simp only [hl, ho, hs, condApply, NQ.apply, limitPart, offsetPart, searchPart] <;>
    (repeat' split) <;>
    simp_all [condPart, NQ.apply]

theorem compileMain_norm (b0 : Builder) :
    b0.compileMain =
      ({ binding := b0.mainBinding,
         clauses := opOf b0.processState ++ tailOf b0.processState.state },
       effOf b0.processState.state.type) := by
  show (applyTail (applyOp _ _).1 _, (applyOp _ _).2) = _
  rw [applyOp_eq, applyTail_eq]
  rfl

@[simp] theorem processState_type (b : Builder) : b.processState.state.type = b.state.type := rfl

@[simp] theorem processState_select (b : Builder) : b.processState.state.select = b.state.select := rfl

@[simp] theorem processState_count (b : Builder) : b.processState.state.count = b.state.count := rfl

@[simp] theorem processState_first (b : Builder) : b.processState.state.first = b.state.first := rfl

@[simp] theorem processState_data (b : Builder) : b.processState.state.data = b.state.data := rfl

@[simp] theorem processState_joins (b : Builder) : b.processState.state.joins = b.state.joins := rfl

@[simp] theorem processState_limit (b : Builder) : b.processState.state.limit = b.state.limit := rfl

@[simp] theorem processState_offset (b : Builder) : b.processState.state.offset = b.state.offset := rfl

@[simp] theorem processState_groupBy (b : Builder) : b.processState.state.groupBy = b.state.groupBy := rfl

@[simp] theorem processState_search (b : Builder) : b.processState.state.search = b.state.search := rfl

@[simp] theorem processState_orderBy (b : Builder) :
    b.processState.state.orderBy = processOrderBy b b.state.orderBy := rfl

@[simp] theorem processState_whereArr (b : Builder) :
    b.processState.state.whereArr = processWhere b b.state.whereArr := rfl

@[simp] theorem processState_tableName (b : Builder) : b.processState.tableName = b.tableName := rfl

@[simp] theorem processState_tableAlias (b : Builder) : b.processState.tableAlias = b.tableAlias := rfl

@[simp] theorem processState_attributes (b : Builder) : b.processState.attributes = b.attributes := rfl

@[simp] theorem processState_useReturning (b : Builder) :
    b.processState.useReturning = b.useReturning := rfl

/-- The sample builder used by the concrete witnesses below. -/
def sampleBuilder : Builder :=
  createQueryBuilder "users" ["id", "name"] true

/-- Kind of an operation-specific clause: `none` for the universal clauses and
for the auxiliary `distinct`/`returning` calls. -/
def Clause.opKind : Clause → Option QType
  | Clause.selectCols _ => some QType.select
  | Clause.countAgg _ => some QType.count
  | Clause.insertData _ => some QType.insert
  | Clause.updateData _ => some QType.update
  | Clause.deleteRows => some QType.delete
  | Clause.truncateTable => some QType.truncate
  | _ => none

/-- Operation kinds of the top-level clauses of a compiled query, in order. -/
def OuterQuery.opKinds (q : OuterQuery) : List QType :=
  q.clauses.filterMap fun oc =>
    match oc with
    | OClause.base c => c.opKind
    | OClause.whereIn _ _ => none

/-- Clause-shape tests used by the claims. -/
def Clause.isReturning : Clause → Bool
  | Clause.returningId => true
  | _ => false

/-- Test for a `limit` clause. -/
def Clause.isLimit : Clause → Bool
  | Clause.limitRows _ => true
  | _ => false

/-- Test for an `offset` clause. -/
def Clause.isOffset : Clause → Bool
  | Clause.offsetRows _ => true
  | _ => false

/-- Test for a `distinct` clause. -/
def Clause.isDistinct : Clause → Bool
  | Clause.distinctOn _ => true
  | _ => false

/-- Test for a `truncate` clause. -/
def Clause.isTruncate : Clause → Bool
  | Clause.truncateTable => true
  | _ => false

/-- Test for an applied-joins clause. -/
def Clause.isJoins : Clause → Bool
  | Clause.joinsApplied _ => true
  | _ => false

/-- Whether some clause call satisfying `p` occurs anywhere in the compiled
query, inside the nested subquery of a `whereIn` included. -/
def OuterQuery.hasClause (q : OuterQuery) (p : Clause → Bool) : Bool :=
  q.clauses.any fun oc =>
    match oc with
    | OClause.base c => p c
    | OClause.whereIn _ ns => ns.subQB.clauses.any p

theorem mem_condPart {p : Bool} {x c : Clause} (h : c ∈ condPart p x) : c = x := by
  unfold condPart at h
  split at h <;> simp_all

theorem mem_limitPart {l : Option Int} {c : Clause} (h : c ∈ limitPart l) :
    ∃ n, c = Clause.limitRows n ∧ l = some n ∧ ¬n = 0 := by
  rcases l with _ | n
  · simp [limitPart] at h
  · simp only [limitPart] at h
    split at h
    · simp at h
    · simp at h
      exact ⟨n, h, rfl, by assumption⟩

theorem mem_offsetPart {l : Option Int} {c : Clause} (h : c ∈ offsetPart l) :
    ∃ n, c = Clause.offsetRows n ∧ l = some n ∧ ¬n = 0 := by
  rcases l with _ | n
  · simp [offsetPart] at h
  · simp only [offsetPart] at h
    split at h
    · simp at h
    · simp at h
      exact ⟨n, h, rfl, by assumption⟩

theorem mem_searchPart {l : Option String} {c : Clause} (h : c ∈ searchPart l) :
    ∃ q, c = Clause.searchGroup q := by
  rcases l with _ | q
  · simp [searchPart] at h
  · simp only [searchPart] at h
    split at h
    · simp at h
    · simp at h
      exact ⟨q, h⟩

theorem mem_tailOf {s : QueryState} {c : Clause} (h : c ∈ tailOf s) :
    (∃ n, c = Clause.limitRows n) ∨ (∃ n, c = Clause.offsetRows n) ∨
    (∃ ob, c = Clause.orderRows ob) ∨ c = Clause.firstRow ∨
    (∃ g, c = Clause.groupRows g) ∨ (∃ ws, c = Clause.whereApplied ws) ∨
    (∃ q, c = Clause.searchGroup q) ∨ (∃ js, c = Clause.joinsApplied js) := by
  simp only [tailOf, List.mem_append, List.mem_singleton] at h
  rcases h with ((((((h | h) | h) | h) | h) | h) | h) | h
  · obtain ⟨n, hn, -, -⟩ := mem_limitPart h
    exact Or.inl ⟨n, hn⟩
  · obtain ⟨n, hn, -, -⟩ := mem_offsetPart h
    exact Or.inr (Or.inl ⟨n, hn⟩)
  · exact Or.inr (Or.inr (Or.inl ⟨_, mem_condPart h⟩))
  · exact Or.inr (Or.inr (Or.inr (Or.inl (mem_condPart h))))
  · exact Or.inr (Or.inr (Or.inr (Or.inr (Or.inl ⟨_, mem_condPart h⟩))))
  · exact Or.inr (Or.inr (Or.inr (Or.inr (Or.inr (Or.inl ⟨_, h⟩)))))
  · exact Or.inr (Or.inr (Or.inr (Or.inr (Or.inr (Or.inr (Or.inl (mem_searchPart h)))))))
  · exact Or.inr (Or.inr (Or.inr (Or.inr (Or.inr (Or.inr (Or.inr ⟨_, mem_condPart h⟩))))))

theorem tailOf_opKind {s : QueryState} {c : Clause} (h : c ∈ tailOf s) : c.opKind = none := by
  rcases mem_tailOf h with ⟨n, rfl⟩ | ⟨n, rfl⟩ | ⟨ob, rfl⟩ | rfl | ⟨g, rfl⟩ | ⟨ws, rfl⟩ |
    ⟨q, rfl⟩ | ⟨js, rfl⟩ <;> rfl

theorem tailOf_not_returning {s : QueryState} {c : Clause} (h : c ∈ tailOf s) :
    c.isReturning = false := by
  rcases mem_tailOf h with ⟨n, rfl⟩ | ⟨n, rfl⟩ | ⟨ob, rfl⟩ | rfl | ⟨g, rfl⟩ | ⟨ws, rfl⟩ |
    ⟨q, rfl⟩ | ⟨js, rfl⟩ <;> rfl

theorem tailOf_isLimit {s : QueryState} (h : s.limit = some 0 ∨ s.limit = none) :
    (tailOf s).any Clause.isLimit = false := by
  rw [List.any_eq_false]
  intro c hc
  simp only [tailOf, List.mem_append, List.mem_singleton] at hc
  rcases hc with ((((((hc | hc) | hc) | hc) | hc) | hc) | hc) | hc
  · obtain ⟨n, rfl, hl, hn⟩ := mem_limitPart hc
    rcases h with h | h <;> rw [h] at hl <;> simp_all
  · obtain ⟨n, rfl, -, -⟩ := mem_offsetPart hc
    simp [Clause.isOffset, Clause.isLimit]
  · rw [mem_condPart hc]; simp [Clause.isLimit]
  · rw [mem_condPart hc]; simp [Clause.isLimit]
  · rw [mem_condPart hc]; simp [Clause.isLimit]
  · rw [hc]; simp [Clause.isLimit]
  · obtain ⟨q, rfl⟩ := mem_searchPart hc
    simp [Clause.isLimit]
  · rw [mem_condPart hc]; simp [Clause.isLimit]

theorem tailOf_isOffset {s : QueryState} (h : s.offset = some 0 ∨ s.offset = none) :
    (tailOf s).any Clause.isOffset = false := by
  rw [List.any_eq_false]
  intro c hc
  simp only [tailOf, List.mem_append, List.mem_singleton] at hc
  rcases hc with ((((((hc | hc) | hc) | hc) | hc) | hc) | hc) | hc
  · obtain ⟨n, rfl, -, -⟩ := mem_limitPart hc
    simp [Clause.isOffset]
  · obtain ⟨n, rfl, hl, hn⟩ := mem_offsetPart hc
    rcases h with h | h <;> rw [h] at hl <;> simp_all
  · rw [mem_condPart hc]; simp [Clause.isOffset]
  · rw [mem_condPart hc]; simp [Clause.isOffset]
  · rw [mem_condPart hc]; simp [Clause.isOffset]
  · rw [hc]; simp [Clause.isOffset]
  · obtain ⟨q, rfl⟩ := mem_searchPart hc
    simp [Clause.isOffset]
  · rw [mem_condPart hc]; simp [Clause.isOffset]

theorem opOf_isLimit (b : Builder) : (opOf b).any Clause.isLimit = false := by
  unfold opOf
  cases h : b.state.type <;>
    simp [condPart, Clause.isLimit, List.any_append] <;>
    (repeat' split) <;> simp [Clause.isLimit]

theorem opOf_isOffset (b : Builder) : (opOf b).any Clause.isOffset = false := by
  unfold opOf
  cases h : b.state.type <;>
    simp [condPart, Clause.isOffset, List.any_append] <;>
    (repeat' split) <;> simp [Clause.isOffset]

/-- Normal form of `getKnexQuery` on the main (non-subquery) path. -/
theorem getKnexQuery_main (b : Builder) (h : b.shouldUseSubQuery = false) :
    b.getKnexQuery =
      { query := { binding := b.mainBinding,
                   clauses := (opOf b.processState ++ tailOf b.processState.state).map OClause.base }
        dbEffects := effOf b.processState.state.type } := by
  unfold Builder.getKnexQuery
  rw [h]
  simp [compileMain_norm]

/-- Normal form of `getKnexQuery` on the subquery-rewrite path: the outer
operation call is the zero-argument `select()`, since `state.type` is read
after `this.select('id')` mutated it. -/
theorem getKnexQuery_sub (b : Builder) (h : b.shouldUseSubQuery = true) :
    b.getKnexQuery =
      { query := { binding := TableBinding.plainName b.tableName,
                   clauses := [OClause.base (Clause.selectCols []),
                     OClause.whereIn "id"
                       { cols := ["id"]
                         subQB :=
                           { binding := (b.select (SelectArgs.single (ColumnRef.str "id"))).mainBinding
                             clauses :=
                               opOf (b.select (SelectArgs.single (ColumnRef.str "id"))).processState ++
                                 tailOf (b.select (SelectArgs.single (ColumnRef.str "id"))).processState.state }
                         subAlias := "subQuery" }] }
        dbEffects := effOf (b.select (SelectArgs.single (ColumnRef.str "id"))).processState.state.type } := by
  unfold Builder.getKnexQuery Builder.runSubQuery
  rw [h]
  simp [compileMain_norm]
  rfl

theorem shouldUseSubQuery_type {b : Builder} (h : b.shouldUseSubQuery = true) :
    (b.state.type = QType.delete ∨ b.state.type = QType.update) ∧ 0 < b.state.joins.length := by
  unfold Builder.shouldUseSubQuery at h
  rw [Bool.and_eq_true] at h
  obtain ⟨h1, h2⟩ := h
  refine ⟨?_, by simpa using h2⟩
  cases ht : b.state.type <;> rw [ht] at h1 <;> simp_all

theorem any_map_base (cs : List Clause) (p : OClause → Bool) (q : Clause → Bool)
    (hpq : ∀ c, p (OClause.base c) = q c) : (cs.map OClause.base).any p = cs.any q := by
  induction cs with
  | nil => rfl
  | cons c cs ih => simp [List.any_cons, ih, hpq]

theorem any_condPart (p : Bool) (c : Clause) (q : Clause → Bool) :
    (condPart p c).any q = (p && q c) := by
  cases p <;> simp [condPart]

theorem hasClause_main (b : Builder) (h : b.shouldUseSubQuery = false) (p : Clause → Bool) :
    b.getKnexQuery.query.hasClause p =
      ((opOf b.processState).any p || (tailOf b.processState.state).any p) := by
  rw [getKnexQuery_main b h]
  unfold OuterQuery.hasClause
  rw [List.map_append, List.any_append, any_map_base _ _ p (fun c => rfl),
    any_map_base _ _ p (fun c => rfl)]

theorem hasClause_sub (b : Builder) (h : b.shouldUseSubQuery = true) (p : Clause → Bool) :
    b.getKnexQuery.query.hasClause p =
      (p (Clause.selectCols []) ||
        ((opOf (b.select (SelectArgs.single (ColumnRef.str "id"))).processState).any p ||
         (tailOf (b.select (SelectArgs.single (ColumnRef.str "id"))).processState.state).any p)) := by
  rw [getKnexQuery_sub b h]
  unfold OuterQuery.hasClause
  simp [List.any_append]

theorem tailOf_any_returning (s : QueryState) : (tailOf s).any Clause.isReturning = false := by
  rw [List.any_eq_false]
  intro c hc
  simp [tailOf_not_returning hc]

theorem opOf_any_returning (b : Builder) :
    (opOf b).any Clause.isReturning =
      (decide (b.state.type = QType.insert) && (b.useReturning && decide ("id" ∈ b.attributes))) := by
  unfold opOf
  cases h : b.state.type <;>
    simp [h, any_condPart, Clause.isReturning, List.any_append]

/-- C2: For every column reference given to the column resolver: a non-string
input is returned unchanged; a string already containing the qualifier
separator `.` is returned unchanged; when an explicit alias is supplied the
result is `<explicitAlias>.<column>`; otherwise the result is
`<builder alias>.<column>` if and only if the current kind is Select or Count,
and the bare column is returned unchanged for Insert, Update, Delete and
Truncate. -/
theorem aliasColumn_resolution (b : Builder) (s : String) (n : Nat) (a : Option String)
    (al : String) (hs : containsDot s = false) :
    b.aliasColumn (ColumnRef.raw n) a = ColumnRef.raw n ∧
    (∀ t : String, containsDot t = true → b.aliasColumn (ColumnRef.str t) a = ColumnRef.str t) ∧
    b.aliasColumn (ColumnRef.str s) (some al) = ColumnRef.str (al ++ "." ++ s) ∧
    (b.aliasColumn (ColumnRef.str s) none = ColumnRef.str (b.tableAlias ++ "." ++ s) ↔
      (b.state.type = QType.select ∨ b.state.type = QType.count)) ∧
    ((b.state.type = QType.insert ∨ b.state.type = QType.update ∨
      b.state.type = QType.delete ∨ b.state.type = QType.truncate) →
      b.aliasColumn (ColumnRef.str s) none = ColumnRef.str s) := by
  refine ⟨rfl, ?_, ?_, ⟨?_, ?_⟩, ?_⟩
  · intro t ht
    simp [Builder.aliasColumn, ht]
  · simp [Builder.aliasColumn, hs]
  · intro h
    by_contra hk
    push_neg at hk
    have hmua : b.mustUseAlias = false := by
      unfold Builder.mustUseAlias
      cases htype : b.state.type <;> simp_all
    simp [Builder.aliasColumn, hs, hmua] at h
    have hlen := congrArg String.length h
    rw [String.length_append, String.length_append] at hlen
    have hdot : ("." : String).length = 1 := rfl
    omega
  · intro h
    have hmua : b.mustUseAlias = true := by
      unfold Builder.mustUseAlias
      rcases h with h | h <;> simp [h]
    simp [Builder.aliasColumn, hs, hmua]
  · intro h
    have hmua : b.mustUseAlias = false := by
      unfold Builder.mustUseAlias
      rcases h with h | h | h | h <;> simp [h]
    simp [Builder.aliasColumn, hs, hmua]

theorem aliasColumn_resolution_witness :
    containsDot "name" = false ∧
    (sampleBuilder.aliasColumn (ColumnRef.raw 7) (some "x") = ColumnRef.raw 7 ∧
     (∀ t : String, containsDot t = true →
        sampleBuilder.aliasColumn (ColumnRef.str t) (some "x") = ColumnRef.str t) ∧
     sampleBuilder.aliasColumn (ColumnRef.str "name") (some "x") = ColumnRef.str "x.name" ∧
     (sampleBuilder.aliasColumn (ColumnRef.str "name") none = ColumnRef.str "t0.name" ↔
       (sampleBuilder.state.type = QType.select ∨ sampleBuilder.state.type = QType.count)) ∧
     ((sampleBuilder.state.type = QType.insert ∨ sampleBuilder.state.type = QType.update ∨
       sampleBuilder.state.type = QType.delete ∨ sampleBuilder.state.type = QType.truncate) →
       sampleBuilder.aliasColumn (ColumnRef.str "name") none = ColumnRef.str "name")) :=
  ⟨by decide, aliasColumn_resolution sampleBuilder "name" 7 (some "x") "x" (by decide)⟩

/-- C6: `where` fails (synchronously, at configuration time) exactly when its
input is not a plain object; on a plain object it appends the descriptor to
the existing filter sequence and leaves every other state field unchanged
(expressed by the record update, which touches only `whereArr`). -/
theorem where_append_or_invalid (b : Builder) (w : WhereArg) :
    ((∃ e, b.whereS w = Except.error e) ↔ isPlainObject w = false) ∧
    (∀ f, w = WhereArg.obj f →
      b.whereS w =
        Except.ok { b with state := { b.state with whereArr := b.state.whereArr ++ [f] } }) := by
  constructor
  · constructor
    · rintro ⟨e, he⟩
      cases w
      · simp [Builder.whereS] at he
      · rfl
    · intro h
      cases w
      · simp [isPlainObject] at h
      · exact ⟨"Where must be an object", rfl⟩
  · rintro f rfl
    rfl

theorem where_append_or_invalid_witness :
    ((∃ e, sampleBuilder.whereS (WhereArg.nonObject "array") = Except.error e) ↔
      isPlainObject (WhereArg.nonObject "array") = false) ∧
    sampleBuilder.whereS (WhereArg.obj [("age", FVal.i 18)]) =
      Except.ok { sampleBuilder with state :=
        { sampleBuilder.state with
            whereArr := sampleBuilder.state.whereArr ++ [[("age", FVal.i 18)]] } } :=
  ⟨(where_append_or_invalid sampleBuilder (WhereArg.nonObject "array")).1,
   (where_append_or_invalid sampleBuilder (WhereArg.obj [("age", FVal.i 18)])).2 _ rfl⟩

/-- C7: a compiled query requests the generated id back (a `returning('id')`
clause, anywhere in the compiled form) exactly when the kind is Insert, the
dialect's `useReturning()` is true and the metadata declares an `id`
attribute; in every other case no returning clause is present. -/
theorem insert_returning_iff (b : Builder) :
    b.getKnexQuery.query.hasClause Clause.isReturning = true ↔
      (b.state.type = QType.insert ∧ b.useReturning = true ∧ "id" ∈ b.attributes) := by
  cases hss : b.shouldUseSubQuery
  · rw [hasClause_main b hss, opOf_any_returning, tailOf_any_returning]
    simp
  · rw [hasClause_sub b hss, opOf_any_returning, tailOf_any_returning]
    rcases (shouldUseSubQuery_type hss).1 with ht | ht <;>
      simp [Builder.select, ht, Clause.isReturning]

/-- The builder state reached when `state.type` holds `truncate` (no public
setter produces this kind; the compiler nevertheless has a branch for it). -/
def truncateBuilder : Builder :=
  { sampleBuilder with state := { sampleBuilder.state with type := QType.truncate } }

/-- C9 (counter-evidence, code bug): with kind Truncate, compilation emits no
truncate clause into the compiled query — indeed no operation-specific clause
at all: the returned query is a bare query on the table carrying only the
unconditional where application.  The source's `truncate` branch (line 271)
calls `db.truncate()` on the database object, unlike every other branch,
which builds onto `qb`; the table-scoped truncate the spec describes never
reaches the compiled query. -/
theorem truncate_branch_no_clause :
    truncateBuilder.getKnexQuery.query.hasClause Clause.isTruncate = false ∧
    truncateBuilder.getKnexQuery.query.opKinds = [] ∧
    truncateBuilder.getKnexQuery.dbEffects = [DbEffect.dbTruncate] ∧
    truncateBuilder.getKnexQuery.query =
      { binding := TableBinding.plainName "users"
        clauses := [OClause.base (Clause.whereApplied [])] } := by
  refine ⟨?_, ?_, ?_, ?_⟩ <;> rfl

/-- C10: `limit(0)` and `offset(0)` compile exactly like a limit/offset that
was never set (JavaScript truthiness: `if (state.limit)`), and a builder whose
limit/offset is `0` or unset compiles to a query with no limit/offset clause
anywhere. -/
theorem limit_offset_zero_like_unset (b : Builder) :
    (b.limit 0).getKnexQuery = ({ b with state := { b.state with limit := none } }).getKnexQuery ∧
    (b.offset 0).getKnexQuery = ({ b with state := { b.state with offset := none } }).getKnexQuery ∧
    ((b.state.limit = some 0 ∨ b.state.limit = none) →
      b.getKnexQuery.query.hasClause Clause.isLimit = false) ∧
    ((b.state.offset = some 0 ∨ b.state.offset = none) →
      b.getKnexQuery.query.hasClause Clause.isOffset = false) := by
  refine ⟨rfl, rfl, ?_, ?_⟩
  · intro h
    cases hss : b.shouldUseSubQuery
    · rw [hasClause_main b hss]
      have htail : (tailOf b.processState.state).any Clause.isLimit = false :=
        tailOf_isLimit (by simpa using h)
      simp [opOf_isLimit, htail]
    · rw [hasClause_sub b hss]
      have htail : (tailOf (b.select (SelectArgs.single (ColumnRef.str "id"))).processState.state).any
          Clause.isLimit = false := by
        apply tailOf_isLimit
        simpa [Builder.select] using h
      simp [opOf_isLimit, htail, Clause.isLimit]
  · intro h
    cases hss : b.shouldUseSubQuery
    · rw [hasClause_main b hss]
      have htail : (tailOf b.processState.state).any Clause.isOffset = false :=
        tailOf_isOffset (by simpa using h)
      simp [opOf_isOffset, htail]
    · rw [hasClause_sub b hss]
      have htail : (tailOf (b.select (SelectArgs.single (ColumnRef.str "id"))).processState.state).any
          Clause.isOffset = false := by
        apply tailOf_isOffset
        simpa [Builder.select] using h
      simp [opOf_isOffset, htail, Clause.isOffset]

theorem limit_offset_zero_like_unset_witness :
    ((sampleBuilder.limit 0).state.limit = some 0 ∨ (sampleBuilder.limit 0).state.limit = none) ∧
    (sampleBuilder.limit 0).getKnexQuery.query.hasClause Clause.isLimit = false :=
  ⟨Or.inl rfl, (limit_offset_zero_like_unset (sampleBuilder.limit 0)).2.2.1 (Or.inl rfl)⟩

@[simp] theorem select_type (b : Builder) (a : SelectArgs) :
    (b.select a).state.type = QType.select := rfl

@[simp] theorem select_selectCols (b : Builder) (a : SelectArgs) :
    (b.select a).state.select = uniq (castArray a) := rfl

@[simp] theorem select_joins (b : Builder) (a : SelectArgs) :
    (b.select a).state.joins = b.state.joins := rfl

@[simp] theorem select_whereArr (b : Builder) (a : SelectArgs) :
    (b.select a).state.whereArr = b.state.whereArr := rfl

@[simp] theorem select_groupBy (b : Builder) (a : SelectArgs) :
    (b.select a).state.groupBy = b.state.groupBy := rfl

@[simp] theorem select_orderBy (b : Builder) (a : SelectArgs) :
    (b.select a).state.orderBy = b.state.orderBy := rfl

@[simp] theorem select_limit (b : Builder) (a : SelectArgs) :
    (b.select a).state.limit = b.state.limit := rfl

@[simp] theorem select_offset (b : Builder) (a : SelectArgs) :
    (b.select a).state.offset = b.state.offset := rfl

@[simp] theorem select_search (b : Builder) (a : SelectArgs) :
    (b.select a).state.search = b.state.search := rfl

@[simp] theorem select_first (b : Builder) (a : SelectArgs) :
    (b.select a).state.first = b.state.first := rfl

@[simp] theorem select_tableAlias (b : Builder) (a : SelectArgs) :
    (b.select a).tableAlias = b.tableAlias := rfl

@[simp] theorem select_tableName (b : Builder) (a : SelectArgs) :
    (b.select a).tableName = b.tableName := rfl

@[simp] theorem select_attributes (b : Builder) (a : SelectArgs) :
    (b.select a).attributes = b.attributes := rfl

@[simp] theorem select_useReturning (b : Builder) (a : SelectArgs) :
    (b.select a).useReturning = b.useReturning := rfl

@[simp] theorem processState_aliasColumn (b : Builder) (c : ColumnRef) (a : Option String) :
    b.processState.aliasColumn c a = b.aliasColumn c a := rfl

@[simp] theorem select_mustUseAlias (b : Builder) (a : SelectArgs) :
    (b.select a).mustUseAlias = true := rfl

/-!
Properties of lodash `uniq` (first-seen deduplication).
-/

theorem mem_uniqAux (l : List ColumnRef) (seen : List ColumnRef) (x : ColumnRef) :
    x ∈ uniqAux seen l ↔ (x ∈ l ∧ x ∉ seen) := by
  induction l generalizing seen with
  | nil => simp [uniqAux]
  | cons c cs ih =>
    unfold uniqAux
    split
    · rename_i hc
      rw [ih]
      simp only [List.mem_cons]
      constructor
      · rintro ⟨hx, hs⟩
        exact ⟨Or.inr hx, hs⟩
      · rintro ⟨hx | hx, hs⟩
        · subst hx
          exact absurd hc hs
        · exact ⟨hx, hs⟩
    · rename_i hc
      simp only [List.mem_cons, ih]
      constructor
      · rintro (rfl | ⟨hx, hs⟩)
        · exact ⟨Or.inl rfl, hc⟩
        · refine ⟨Or.inr hx, fun hmem => hs ?_⟩
          simp [hmem]
      · rintro ⟨hx, hs⟩
        by_cases hxc : x = c
        · exact Or.inl hxc
        · rcases hx with rfl | hx
          · exact Or.inl rfl
          · exact Or.inr ⟨hx, by simp [hxc, hs]⟩

theorem uniqAux_nodup (l : List ColumnRef) (seen : List ColumnRef) :
    (uniqAux seen l).Nodup := by
  induction l generalizing seen with
  | nil => simp [uniqAux]
  | cons c cs ih =>
    unfold uniqAux
    split
    · exact ih seen
    · refine List.nodup_cons.mpr ⟨?_, ih (c :: seen)⟩
      rw [mem_uniqAux]
      rintro ⟨-, habs⟩
      exact habs (List.mem_cons_self c seen)

theorem uniqAux_sublist (l : List ColumnRef) (seen : List ColumnRef) :
    (uniqAux seen l).Sublist l := by
  induction l generalizing seen with
  | nil => simp [uniqAux]
  | cons c cs ih =>
    unfold uniqAux
    split
    · exact (ih seen).cons c
    · exact (ih (c :: seen)).cons₂ c

theorem uniq_nodup (l : List ColumnRef) : (uniq l).Nodup :=
  uniqAux_nodup l []

theorem uniq_sublist (l : List ColumnRef) : (uniq l).Sublist l :=
  uniqAux_sublist l []

theorem mem_uniq (l : List ColumnRef) (x : ColumnRef) : x ∈ uniq l ↔ x ∈ l := by
  rw [uniq, mem_uniqAux]
  simp

/-- First-seen deduplication as the spec words it: keep each element the first
time its value appears and drop its later duplicates (this is the
specification-side description; the source-side implementation is `uniq`). -/
def specDedup : List ColumnRef → List ColumnRef
  | [] => []
  | c :: cs => c :: specDedup (cs.filter fun x => x ≠ c)
termination_by l => l.length
decreasing_by
  simp only [List.length_cons]
  exact Nat.lt_succ_of_le (List.length_filter_le _ _)

/-- Step equation of `uniqAux` on a cons cell. -/
theorem uniqAux_cons (seen : List ColumnRef) (c : ColumnRef) (cs : List ColumnRef) :
    uniqAux seen (c :: cs) =
      if c ∈ seen then uniqAux seen cs else c :: uniqAux (c :: seen) cs := rfl

/-- Moving part of the seen-set of `uniqAux` into a filter on the input. -/
theorem uniqAux_filter (l : List ColumnRef) (B C : List ColumnRef) :
    uniqAux (B ++ C) l = uniqAux B (l.filter fun x => decide (x ∉ C)) := by
  induction l generalizing B with
  | nil => rfl
  | cons c cs ih =>
    by_cases hC : c ∈ C
    · rw [uniqAux_cons, if_pos (List.mem_append.mpr (Or.inr hC)),
        List.filter_cons_of_neg (by simp [hC]), ih]
    · by_cases hB : c ∈ B
      · rw [uniqAux_cons, if_pos (List.mem_append.mpr (Or.inl hB)),
          List.filter_cons_of_pos (by simp [hC]), uniqAux_cons, if_pos hB, ih]
      · rw [uniqAux_cons, if_neg (by simp [hB, hC]),
          List.filter_cons_of_pos (by simp [hC]), uniqAux_cons, if_neg hB]
        exact congrArg (c :: ·) (ih (c :: B))

/-- The implementation `uniq` computes exactly the specification-side
first-seen deduplication. -/
theorem uniq_eq_specDedup (l : List ColumnRef) : uniq l = specDedup l := by
  suffices hgen : ∀ n (l : List ColumnRef), l.length ≤ n → uniq l = specDedup l from
    hgen l.length l le_rfl
  intro n
  induction n with
  | zero =>
    intro l hl
    rw [List.length_eq_zero.mp (Nat.le_zero.mp hl)]
    rw [specDedup]
    rfl
  | succ n ih =>
    intro l hl
    match l with
    | [] =>
      rw [specDedup]
      rfl
    | c :: cs =>
      rw [specDedup]
      show uniqAux [] (c :: cs) = _
      rw [uniqAux_cons, if_neg (List.not_mem_nil c),
        show ([c] : List ColumnRef) = [] ++ [c] from rfl,
        uniqAux_filter]
      have hfil : (cs.filter fun x => decide (x ∉ [c])) = cs.filter fun x => x ≠ c := by
        apply List.filter_congr
        intro a _
        simp
      rw [hfil]
      have hlen : (cs.filter fun x => x ≠ c).length ≤ n :=
        le_trans (List.length_filter_le _ _) (by simpa using hl)
      exact congrArg (c :: ·) (ih _ hlen)

/-- On a deduplicated prefix, `uniq` keeps the prefix unchanged and appends
the deduplicated new elements: `addSelect` unions onto the end. -/
theorem uniq_append_nodup (l1 l2 : List ColumnRef) (h : l1.Nodup) :
    uniq (l1 ++ l2) = l1 ++ uniq (l2.filter fun x => decide (x ∉ l1)) := by
  induction l1 generalizing l2 with
  | nil =>
    simp only [List.nil_append]
    congr 1
    rw [List.filter_eq_self.mpr]
    intro a _
    simp
  | cons c l1 ih =>
    obtain ⟨hc, h1⟩ := List.nodup_cons.mp h
    show uniqAux [] (c :: (l1 ++ l2)) = _
    rw [uniqAux_cons, if_neg (List.not_mem_nil c),
      show ([c] : List ColumnRef) = [] ++ [c] from rfl,
      uniqAux_filter, List.filter_append]
    have hl1 : (l1.filter fun x => decide (x ∉ [c])) = l1 := by
      rw [List.filter_eq_self]
      intro a ha
      simp only [List.mem_singleton, decide_eq_true_eq]
      exact fun heq => hc (heq ▸ ha)
    rw [hl1]
    show c :: uniq (l1 ++ l2.filter fun x => decide (x ∉ [c])) = _
    rw [ih _ h1, List.filter_filter, List.cons_append]
    congr 3
    apply List.filter_congr
    intro a _
    by_cases hac : a = c <;> by_cases hal : a ∈ l1 <;>
      simp [hac, hal, List.mem_cons]

/-!
Sequences of fluent setter calls, for the claims quantifying over call
chains.
-/

/-- One kind-setting fluent call (`select`/`insert`/`update`/`delete`/`count`). -/
inductive KindCall where
  | selectC (args : SelectArgs)
  | insertC (d : Payload)
  | updateC (d : Payload)
  | deleteC
  | countC (c : String)
deriving DecidableEq

/-- Applying one kind-setting call to the builder. -/
def applyCall (b : Builder) : KindCall → Builder
  | KindCall.selectC a => b.select a
  | KindCall.insertC d => b.insert d
  | KindCall.updateC d => b.update d
  | KindCall.deleteC => b.delete
  | KindCall.countC c => b.count c

/-- Applying a chain of kind-setting calls, left to right. -/
def applyCalls (b : Builder) (cs : List KindCall) : Builder :=
  cs.foldl applyCall b

/-- The kind a call sets. -/
def callKind : KindCall → QType
  | KindCall.selectC _ => QType.select
  | KindCall.insertC _ => QType.insert
  | KindCall.updateC _ => QType.update
  | KindCall.deleteC => QType.delete
  | KindCall.countC _ => QType.count

/-- Kind set by the last call of the chain; Select when the chain is empty. -/
def lastKind (cs : List KindCall) : QType :=
  cs.foldl (fun _ c => callKind c) QType.select

theorem applyCall_type (b : Builder) (c : KindCall) :
    (applyCall b c).state.type = callKind c := by
  cases c <;> rfl

theorem applyCall_joins (b : Builder) (c : KindCall) :
    (applyCall b c).state.joins = b.state.joins := by
  cases c <;> rfl

theorem applyCalls_joins (b : Builder) (cs : List KindCall) :
    (applyCalls b cs).state.joins = b.state.joins := by
  induction cs generalizing b with
  | nil => rfl
  | cons c cs ih =>
    show (applyCalls (applyCall b c) cs).state.joins = _
    rw [ih, applyCall_joins]

theorem applyCalls_type (b : Builder) (cs : List KindCall) :
    (applyCalls b cs).state.type = cs.foldl (fun _ c => callKind c) b.state.type := by
  induction cs generalizing b with
  | nil => rfl
  | cons c cs ih =>
    show (applyCalls (applyCall b c) cs).state.type = _
    rw [ih, applyCall_type]
    rfl

theorem foldl_callKind_ne_truncate (cs : List KindCall) (k : QType)
    (hk : k ≠ QType.truncate) :
    cs.foldl (fun _ c => callKind c) k ≠ QType.truncate := by
  induction cs generalizing k with
  | nil => exact hk
  | cons c cs ih =>
    exact ih (callKind c) (by cases c <;> simp [callKind])

theorem filterMap_opKind_map_base (cs : List Clause) :
    (cs.map OClause.base).filterMap (fun oc =>
      match oc with
      | OClause.base c => c.opKind
      | OClause.whereIn _ _ => none) = cs.filterMap Clause.opKind := by
  induction cs with
  | nil => rfl
  | cons c cs ih => simp [List.filterMap_cons, ih]

theorem tailOf_filterMap_opKind (s : QueryState) :
    (tailOf s).filterMap Clause.opKind = [] := by
  rw [List.filterMap_eq_nil_iff]
  intro c hc
  exact tailOf_opKind hc

theorem opOf_filterMap_opKind (b : Builder) (h : b.state.type ≠ QType.truncate) :
    (opOf b).filterMap Clause.opKind = [b.state.type] := by
  unfold opOf
  cases ht : b.state.type
  case select =>
    cases hD : (decide (0 < b.state.joins.length) && b.state.groupBy.isEmpty) <;>
      simp [ht, hD, condPart, Clause.opKind, List.filterMap_append, List.filterMap_cons]
  case count => simp [ht, Clause.opKind, List.filterMap_cons]
  case insert =>
    cases hR : (b.useReturning && decide ("id" ∈ b.attributes)) <;>
      simp [ht, hR, condPart, Clause.opKind, List.filterMap_append, List.filterMap_cons]
  case update => simp [ht, Clause.opKind, List.filterMap_cons]
  case delete => simp [ht, Clause.opKind, List.filterMap_cons]
  case truncate => exact absurd ht h

/-- On the main (non-subquery) path the top-level operation-specific clause is
unique and matches the builder kind — except for the broken Truncate branch,
which emits none. -/
theorem opKinds_getKnexQuery (b : Builder) (hss : b.shouldUseSubQuery = false)
    (h : b.state.type ≠ QType.truncate) :
    b.getKnexQuery.query.opKinds = [b.state.type] := by
  rw [getKnexQuery_main b hss]
  unfold OuterQuery.opKinds
  rw [List.map_append, List.filterMap_append, filterMap_opKind_map_base,
    filterMap_opKind_map_base, opOf_filterMap_opKind _ (by simpa using h),
    tailOf_filterMap_opKind]
  simp

/-- C4: for every chain of `select`/`insert`/`update`/`delete`/`count` setter
calls followed by one compile, the kind at compile time is the kind of the
last call (Select when there was none), and exactly one operation-specific
clause — the one matching that kind — occurs in the compiled query. -/
theorem kind_last_call_single_op_clause (t : String) (attrs : List String) (u : Bool)
    (cs : List KindCall) :
    (applyCalls (createQueryBuilder t attrs u) cs).state.type = lastKind cs ∧
    (applyCalls (createQueryBuilder t attrs u) cs).getKnexQuery.query.opKinds =
      [lastKind cs] := by
  have h1 : (applyCalls (createQueryBuilder t attrs u) cs).state.type = lastKind cs := by
    rw [applyCalls_type]
    rfl
  refine ⟨h1, ?_⟩
  have h2 : lastKind cs ≠ QType.truncate :=
    foldl_callKind_ne_truncate cs QType.select (by simp)
  have hss : (applyCalls (createQueryBuilder t attrs u) cs).shouldUseSubQuery = false := by
    unfold Builder.shouldUseSubQuery
    rw [applyCalls_joins]
    simp [createQueryBuilder, initialState]
  rw [opKinds_getKnexQuery _ hss (by rw [h1]; exact h2), h1]

/-- One `select`/`addSelect` fluent call. -/
inductive SelCall where
  | selectC (args : SelectArgs)
  | addSelectC (args : SelectArgs)
deriving DecidableEq

/-- Applying one `select`/`addSelect` call. -/
def applySelCall (b : Builder) : SelCall → Builder
  | SelCall.selectC a => b.select a
  | SelCall.addSelectC a => b.addSelect a

/-- Applying a chain of `select`/`addSelect` calls, left to right. -/
def applySelCalls (b : Builder) (cs : List SelCall) : Builder :=
  cs.foldl applySelCall b

theorem applySelCalls_nodup (b : Builder) (cs : List SelCall)
    (h : b.state.select.Nodup) : (applySelCalls b cs).state.select.Nodup := by
  induction cs generalizing b with
  | nil => exact h
  | cons c cs ih =>
    show (applySelCalls (applySelCall b c) cs).state.select.Nodup
    apply ih
    cases c <;> exact uniq_nodup _

/-- C5: `select`/`addSelect` keep `selectColumns` deduplicated in first-seen
order: any chain of such calls yields a duplicate-free list; `select` replaces
the list with the first-seen deduplication of its argument (a sublist of the
argument with the same members); `addSelect` appends the deduplicated new
columns after the existing ones; and `*` is substituted into the emitted
select clause only when the list is empty at compile time. -/
theorem select_addSelect_dedup_order (b : Builder) (cs : List SelCall)
    (args : SelectArgs) (h : b.state.select.Nodup) :
    (applySelCalls b cs).state.select.Nodup ∧
    (b.select args).state.select = specDedup (castArray args) ∧
    (b.select args).state.select.Sublist (castArray args) ∧
    (∀ x, x ∈ (b.select args).state.select ↔ x ∈ castArray args) ∧
    (b.addSelect args).state.select =
      b.state.select ++ uniq ((castArray args).filter fun x => decide (x ∉ b.state.select)) ∧
    (b.state.type = QType.select → b.state.joins = [] →
      opOf b.processState =
        [Clause.selectCols ((if b.state.select.length = 0 then [ColumnRef.str "*"]
            else b.state.select).map fun c => b.aliasColumn c none)]) := by
  refine ⟨applySelCalls_nodup b cs h, ?_, ?_, ?_, ?_, ?_⟩
  · exact uniq_eq_specDedup (castArray args)
  · exact uniq_sublist (castArray args)
  · intro x
    exact mem_uniq (castArray args) x
  · exact uniq_append_nodup b.state.select (castArray args) h
  · intro ht hj
    unfold opOf
    simp [ht, hj, condPart]

theorem select_addSelect_dedup_order_witness :
    sampleBuilder.state.select.Nodup ∧
    ((applySelCalls sampleBuilder
        [SelCall.selectC (SelectArgs.many [ColumnRef.str "a", ColumnRef.str "b", ColumnRef.str "a"]),
         SelCall.addSelectC (SelectArgs.many [ColumnRef.str "b", ColumnRef.str "c"])]).state.select.Nodup ∧
     (sampleBuilder.select (SelectArgs.many
        [ColumnRef.str "a", ColumnRef.str "b", ColumnRef.str "a"])).state.select =
       specDedup [ColumnRef.str "a", ColumnRef.str "b", ColumnRef.str "a"] ∧
     (sampleBuilder.select (SelectArgs.many
        [ColumnRef.str "a", ColumnRef.str "b", ColumnRef.str "a"])).state.select.Sublist
       [ColumnRef.str "a", ColumnRef.str "b", ColumnRef.str "a"] ∧
     (∀ x, x ∈ (sampleBuilder.select (SelectArgs.many
        [ColumnRef.str "a", ColumnRef.str "b", ColumnRef.str "a"])).state.select ↔
       x ∈ [ColumnRef.str "a", ColumnRef.str "b", ColumnRef.str "a"]) ∧
     (sampleBuilder.addSelect (SelectArgs.many
        [ColumnRef.str "a", ColumnRef.str "b", ColumnRef.str "a"])).state.select =
       sampleBuilder.state.select ++
         uniq (([ColumnRef.str "a", ColumnRef.str "b", ColumnRef.str "a"] :
             List ColumnRef).filter fun x => decide (x ∉ sampleBuilder.state.select)) ∧
     (sampleBuilder.state.type = QType.select → sampleBuilder.state.joins = [] →
       opOf sampleBuilder.processState =
         [Clause.selectCols ((if sampleBuilder.state.select.length = 0 then [ColumnRef.str "*"]
             else sampleBuilder.state.select).map fun c => sampleBuilder.aliasColumn c none)])) :=
  ⟨by decide,
   select_addSelect_dedup_order sampleBuilder
     [SelCall.selectC (SelectArgs.many [ColumnRef.str "a", ColumnRef.str "b", ColumnRef.str "a"]),
      SelCall.addSelectC (SelectArgs.many [ColumnRef.str "b", ColumnRef.str "c"])]
     (SelectArgs.many [ColumnRef.str "a", ColumnRef.str "b", ColumnRef.str "a"])
     (by decide)⟩

theorem tailOf_any_distinct (s : QueryState) : (tailOf s).any Clause.isDistinct = false := by
  rw [List.any_eq_false]
  intro c hc
  rcases mem_tailOf hc with ⟨n, rfl⟩ | ⟨n, rfl⟩ | ⟨ob, rfl⟩ | rfl | ⟨g, rfl⟩ | ⟨ws, rfl⟩ |
    ⟨q, rfl⟩ | ⟨js, rfl⟩ <;> simp [Clause.isDistinct]

theorem opOf_any_distinct (b : Builder) :
    (opOf b).any Clause.isDistinct =
      (decide (b.state.type = QType.select) &&
        (decide (0 < b.state.joins.length) && b.state.groupBy.isEmpty)) := by
  unfold opOf
  cases ht : b.state.type <;>
    simp [ht, any_condPart, Clause.isDistinct, List.any_append]

/-- The operation-specific clause list of a Select compilation, spelled out. -/
theorem opOf_select_clauses (b : Builder) (h : b.state.type = QType.select) :
    opOf b.processState =
      condPart (decide (0 < b.state.joins.length) && b.state.groupBy.isEmpty)
        (Clause.distinctOn (b.aliasColumn (ColumnRef.str "id") none)) ++
      [Clause.selectCols
        ((if decide (0 < b.state.joins.length) && b.state.groupBy.isEmpty then
            ((processOrderBy b b.state.orderBy).map fun o => o.column) ++
              (if b.state.select.length = 0 then [ColumnRef.str "*"] else b.state.select)
          else if b.state.select.length = 0 then [ColumnRef.str "*"] else b.state.select).map
          fun c => b.aliasColumn c none)] := by
  unfold opOf
  simp [h]

/-- C3: for a Select compilation, when the joins list is non-empty and the
groupBy list is empty, the compiled query contains a DISTINCT on the aliased
primary-key column and the (processed) order-by columns are prepended to the
select list; the same configuration with a non-empty groupBy gets no DISTINCT
and an unchanged select list. -/
theorem select_joins_distinct_injection (b : Builder) (h : b.state.type = QType.select) :
    b.getKnexQuery.query.clauses =
      (opOf b.processState ++ tailOf b.processState.state).map OClause.base ∧
    (b.state.joins ≠ [] → b.state.groupBy = [] →
      b.getKnexQuery.query.hasClause Clause.isDistinct = true ∧
      opOf b.processState =
        [Clause.distinctOn (b.aliasColumn (ColumnRef.str "id") none),
         Clause.selectCols
           ((((processOrderBy b b.state.orderBy).map fun o => o.column) ++
              (if b.state.select.length = 0 then [ColumnRef.str "*"] else b.state.select)).map
             fun c => b.aliasColumn c none)]) ∧
    (b.state.joins ≠ [] → b.state.groupBy ≠ [] →
      b.getKnexQuery.query.hasClause Clause.isDistinct = false ∧
      opOf b.processState =
        [Clause.selectCols ((if b.state.select.length = 0 then [ColumnRef.str "*"]
            else b.state.select).map fun c => b.aliasColumn c none)]) := by
  have hss : b.shouldUseSubQuery = false := by
    unfold Builder.shouldUseSubQuery
    simp [h]
  refine ⟨?_, ?_, ?_⟩
  · rw [getKnexQuery_main b hss]
  · intro hj hg
    constructor
    · rw [hasClause_main b hss, opOf_any_distinct, tailOf_any_distinct]
      simp [h, hg, List.length_pos, hj]
    · rw [opOf_select_clauses b h]
      simp [condPart, hg, List.length_pos, hj]
  · intro hj hg
    constructor
    · rw [hasClause_main b hss, opOf_any_distinct, tailOf_any_distinct]
      simp [h, hg]
    · rw [opOf_select_clauses b h]
      simp [condPart, hg, List.length_pos, hj]

/-- Sample join descriptor used by the concrete witnesses. -/
def sampleJoin : Join where
  joinAlias := "t1"
  targetTable := "pets"
  joinType := "leftJoin"
  onFields := [("t0.id", "t1.owner_id")]

/-- Select with a join, an order-by and an empty groupBy. -/
def joinSelectBuilder : Builder :=
  ((sampleBuilder.select (SelectArgs.single (ColumnRef.str "name"))).join sampleJoin).orderBy
    [{ column := ColumnRef.str "age", direction := some Direction.desc }]

/-- The same configuration with a non-empty groupBy. -/
def joinGroupBuilder : Builder :=
  joinSelectBuilder.groupBy ["t0.name"]

theorem select_joins_distinct_injection_witness :
    joinSelectBuilder.state.type = QType.select ∧
    joinSelectBuilder.state.joins ≠ [] ∧ joinSelectBuilder.state.groupBy = [] ∧
    joinSelectBuilder.getKnexQuery.query.hasClause Clause.isDistinct = true ∧
    joinGroupBuilder.state.groupBy ≠ [] ∧
    joinGroupBuilder.getKnexQuery.query.hasClause Clause.isDistinct = false :=
  ⟨rfl, by decide, rfl,
   ((select_joins_distinct_injection joinSelectBuilder rfl).2.1 (by decide) rfl).1,
   by decide,
   ((select_joins_distinct_injection joinGroupBuilder rfl).2.2 (by decide) (by decide)).1⟩

/-- C8: on every compilation that is not subquery-rewritten, the compiled
clause list is exactly the operation-specific clauses followed, in this fixed
order, by: limit, offset, order-by, first, group-by, the (always applied)
normalized where filters, the search term as one nested predicate group (a
separate additional clause, so it does not replace the filters), and the joins
last. -/
theorem universal_clause_order (b : Builder) (h : b.shouldUseSubQuery = false) :
    b.getKnexQuery.query.clauses =
      (opOf b.processState ++
        (limitPart b.state.limit ++ offsetPart b.state.offset ++
          condPart (decide (0 < (processOrderBy b b.state.orderBy).length))
            (Clause.orderRows (processOrderBy b b.state.orderBy)) ++
          condPart b.state.first Clause.firstRow ++
          condPart (decide (0 < b.state.groupBy.length)) (Clause.groupRows b.state.groupBy) ++
          [Clause.whereApplied (processWhere b b.state.whereArr)] ++
          searchPart b.state.search ++
          condPart (decide (0 < b.state.joins.length))
            (Clause.joinsApplied b.state.joins))).map OClause.base := by
  rw [getKnexQuery_main b h]
  rfl

/-- Builder exercising every universal clause at once. -/
def clauseOrderBuilder : Builder :=
  (((((sampleBuilder.select (SelectArgs.single (ColumnRef.str "name"))).limit 10).offset
      5).search "jo").orderBy
    [{ column := ColumnRef.str "age", direction := some Direction.asc }]).first

theorem universal_clause_order_witness :
    clauseOrderBuilder.shouldUseSubQuery = false ∧
    clauseOrderBuilder.getKnexQuery.query.clauses =
      (opOf clauseOrderBuilder.processState ++
        (limitPart clauseOrderBuilder.state.limit ++
          offsetPart clauseOrderBuilder.state.offset ++
          condPart (decide (0 <
              (processOrderBy clauseOrderBuilder clauseOrderBuilder.state.orderBy).length))
            (Clause.orderRows
              (processOrderBy clauseOrderBuilder clauseOrderBuilder.state.orderBy)) ++
          condPart clauseOrderBuilder.state.first Clause.firstRow ++
          condPart (decide (0 < clauseOrderBuilder.state.groupBy.length))
            (Clause.groupRows clauseOrderBuilder.state.groupBy) ++
          [Clause.whereApplied
            (processWhere clauseOrderBuilder clauseOrderBuilder.state.whereArr)] ++
          searchPart clauseOrderBuilder.state.search ++
          condPart (decide (0 < clauseOrderBuilder.state.joins.length))
            (Clause.joinsApplied clauseOrderBuilder.state.joins))).map OClause.base :=
  ⟨by decide, universal_clause_order clauseOrderBuilder (by decide)⟩

/-- Test for the delete clause. -/
def Clause.isDelete : Clause → Bool
  | Clause.deleteRows => true
  | _ => false

/-- Test for the update clause. -/
def Clause.isUpdate : Clause → Bool
  | Clause.updateData _ => true
  | _ => false

/-- Test for a `whereIn` clause on the given column. -/
def OClause.isWhereInOn : OClause → String → Bool
  | OClause.whereIn c _, col => c == col
  | _, _ => false

/-- Delete with one join and one filter, as in the spec's example. -/
def deleteJoinBuilder : Builder :=
  { (sampleBuilder.delete).join sampleJoin with state :=
      { ((sampleBuilder.delete).join sampleJoin).state with
          whereArr := [[("age", FVal.i 18)]] } }

/-- C1 (counter-evidence, code bug): for a Delete with a join and a filter the
compilation is two-phase — the outer query is bound to the base table only,
carries exactly two clauses whose second and last is the single
`whereIn('id', nested)` filter, and the join survives only inside the nested
subquery — but the outer query is NOT of the original kind:
`this.select('id')` (line 198) sets `state.type = 'select'` on the shared
closed-over state before line 205 reads `state.type` to build the outer
call, so the outer operation call is a zero-argument `select()` and the
compiled result contains no delete (and no update) clause anywhere; the
intended mutation is lost.  The claim and the spec (§4.5: "a new top-level
query of the original kind") describe the evident purpose of
`shouldUseSubQuery`/`runSubQuery`, which the code defeats by reading
`state.type` after overwriting it. -/
theorem subquery_rewrite_outer_kind_lost :
    deleteJoinBuilder.state.type = QType.delete ∧
    deleteJoinBuilder.state.joins ≠ [] ∧
    deleteJoinBuilder.getKnexQuery.query.binding = TableBinding.plainName "users" ∧
    deleteJoinBuilder.getKnexQuery.query.clauses.head? =
      some (OClause.base (Clause.selectCols [])) ∧
    (deleteJoinBuilder.getKnexQuery.query.clauses.map fun oc => oc.isWhereInOn "id") =
      [false, true] ∧
    deleteJoinBuilder.getKnexQuery.query.hasClause Clause.isDelete = false ∧
    deleteJoinBuilder.getKnexQuery.query.hasClause Clause.isUpdate = false ∧
    deleteJoinBuilder.getKnexQuery.query.hasClause Clause.isJoins = true ∧
    deleteJoinBuilder.getKnexQuery.dbEffects = [] := by
  decide

end QueryBuilder
